import Mathlib

/-!
Shallow embedding of the Jira bulk-import conversion pipeline
(`src/jira-import-app/app.py`): the three stages `preprocess`,
`dataframeprocess` and `postprocess`, and the composed `convert`.

Modelling conventions:
* a table is a `List Row`; a missing (NaN) cell is `none`;
* platform estimate cells are `Cell`: `Cell.num q` models a value that
  Python `float(...)` converts successfully (numeric values and
  numeric-looking strings alike), `Cell.str s` a value on which
  `float(...)` raises `ValueError`;
* real numbers are modelled by `ℚ` (the source works in IEEE doubles;
  the rounding mode of `Series.round` — numpy round-half-to-even — is
  captured exactly by `roundHalfEven`);
* Python dicts keyed by epic name are association lists with
  insert-or-replace update (`setKey`) and first-match lookup (`getKey`);
* the column bookkeeping of `preprocess` (dropping the placeholder
  columns `Unnamed: 3/5/7`, keeping the first six columns, checking that
  `EPIC` exists) is the identity on this fixed six-field row type and is
  therefore not re-modelled; the row-level steps (length check, dropping
  the first data row, dropping all-empty rows, sentinel truncation) are.
-/

namespace JiraImport

/-- A platform estimate cell as seen by Python `float(...)`:
`num q` converts to the number `q`, `str s` raises `ValueError`. -/
inductive Cell where
  | num (q : ℚ)
  | str (s : String)
deriving DecidableEq

/-- Models Python `float(...)` on a cell value: `some` of the numeric
value on success, `none` when `ValueError` would be raised. -/
def parseCell : Cell → Option ℚ
  | .num q => some q
  | .str _ => none

/-- One input row, restricted to the six semantic columns kept by
`preprocess` (`data.iloc[:, :6]`). `none` models a NaN cell. -/
structure Row where
  EPIC : Option String
  SUMMARY : Option String
  IOS : Option Cell
  AND : Option Cell
  SERV : Option Cell
  NOTES : Option String
deriving DecidableEq

/-- A row every cell of which is NaN, as removed by
`data.dropna(how="all")`. -/
def Row.isAllEmpty (r : Row) : Bool :=
  r.EPIC.isNone && r.SUMMARY.isNone && r.IOS.isNone && r.AND.isNone &&
    r.SERV.isNone && r.NOTES.isNone

/-- Row classified as an Epic row: `pd.notna(row["EPIC"])`. -/
def Row.isEpicRow (r : Row) : Bool := r.EPIC.isSome

/-- Row classified as a Story row: NaN `EPIC` and `pd.notna(row["SUMMARY"])`. -/
def Row.isStoryRow (r : Row) : Bool := r.EPIC.isNone && r.SUMMARY.isSome

/-- The error taxonomy of the pipeline (all raised as `ValueError` in the
source; `orphanStory` carries the offending row index interpolated into
the message at line 110 of `app.py`). -/
inductive Err where
  | emptyInput
  | missingSentinel
  | orphanStory (index : ℕ)
  | invalidEstimate
deriving DecidableEq

/-- The row-level cleanup of `preprocess` before the sentinel scan:
drop the first data row (`data.drop(index=0)`), then drop rows whose
cells are all NaN (`data.dropna(how="all")`). -/
def normalizedRows (data : List Row) : List Row :=
  (data.drop 1).filter (fun r => !r.isAllEmpty)

/-- Index of the first row whose `EPIC` cell equals `"END"`, as computed
by `data[data["EPIC"] == "END"].index[0]` after `reset_index`. -/
def firstEndIdx : List Row → Option ℕ
  | [] => none
  | r :: rs =>
    if r.EPIC = some "END" then some 0
    else (firstEndIdx rs).map (fun n => n + 1)

/-- Stage 1, `preprocess` (app.py lines 14-55): length check, drop of
the first data row, removal of all-empty rows, truncation strictly
before the first `"END"` in the `EPIC` column. -/
def preprocess (data : List Row) : Except Err (List Row) :=
  if data.length < 2 then .error .emptyInput
  else
    match firstEndIdx (normalizedRows data) with
    | some i => .ok ((normalizedRows data).take i)
    | none => .error .missingSentinel

/-- The three per-epic platform flags tracked in
`epic_components_tracker` (dict insertion order Android, iOS, Server). -/
structure Flags where
  android : Bool
  ios : Bool
  server : Bool
deriving DecidableEq

/-- The `Original Estimate` cell of an intermediate record: `""` for a
freshly created Epic record, the raw platform cell for a Story record,
a number once `postprocess` has back-filled the epic sum. -/
inductive EstVal where
  | empty
  | raw (c : Cell)
  | num (q : ℚ)
deriving DecidableEq

/-- An intermediate output record: one entry of `data_rows`
(app.py lines 96-158), with the seven columns of `columns`. -/
structure Record where
  issueType : String
  epicName : String
  epicLink : String
  summary : Option String
  description : Option String
  components : String
  originalEstimate : EstVal
deriving DecidableEq

/-- A finished record after `postprocess`: estimate in integer seconds,
plus the two appended components columns. -/
structure FinalRecord where
  issueType : String
  epicName : String
  epicLink : String
  summary : Option String
  description : Option String
  components : String
  originalEstimate : ℤ
  components1 : String
  components2 : String
deriving DecidableEq

/-- Dict lookup: value of the first entry with the given key. -/
def getKey {α : Type} : List (String × α) → String → Option α
  | [], _ => none
  | p :: ps, k => if p.1 = k then some p.2 else getKey ps k

/-- Dict update `m[k] = v`: replace the first entry with the given key,
or append a new entry. -/
def setKey {α : Type} : List (String × α) → String → α → List (String × α)
  | [], k, v => [(k, v)]
  | p :: ps, k, v => if p.1 = k then (k, v) :: ps else p :: setKey ps k v

/-- The Epic record appended at app.py lines 96-106. -/
def epicRecord (e : String) (row : Row) : Record :=
  { issueType := "Epic", epicName := e, epicLink := "",
    summary := row.SUMMARY, description := row.NOTES,
    components := "", originalEstimate := .empty }

/-- The Story record appended for one populated platform cell
(app.py lines 118-128, 133-143, 148-158): it carries that platform's
own raw estimate cell, not any aggregate. -/
def storyRecord (name : String) (row : Row) (comp : String) (c : Cell) : Record :=
  { issueType := "Story", epicName := "", epicLink := name,
    summary := row.SUMMARY, description := row.NOTES,
    components := comp, originalEstimate := .raw c }

/-- The Story records one platform cell contributes: none when the cell
is NaN, exactly one otherwise. -/
def platformRecords (name : String) (row : Row) (comp : String) :
    Option Cell → List Record
  | none => []
  | some c => [storyRecord name row comp c]

/-- The numeric contribution of one platform cell to the running epic
sum (`float(row[...])`; `0` for a NaN cell, default otherwise unused). -/
def cellDays : Option Cell → ℚ
  | none => 0
  | some c => (parseCell c).getD 0

/-- The mutable state of the `dataframeprocess` loop: `current_epic_name`,
`epic_estimates`, `epic_components_tracker`, and the `data_rows`
accumulator. -/
structure PState where
  currentEpic : String
  estimates : List (String × ℚ)
  tracker : List (String × Flags)
  records : List Record

/-- Initial loop state of `dataframeprocess` (app.py lines 71-73, 85). -/
def initState : PState :=
  { currentEpic := "", estimates := [], tracker := [], records := [] }

/-- Handling of one platform cell of a Story row: mark the platform flag
on the current epic's tracker entry, parse the cell (raising
`ValueError`, i.e. `invalidEstimate`, on failure), append the Story
record, and return the parsed value for the running sum. -/
def procPlat (st : PState) (row : Row) (cell : Option Cell) (comp : String)
    (mark : Flags → Flags) : Except Err (PState × ℚ) :=
  match cell with
  | none => .ok (st, 0)
  | some c =>
    let st1 := { st with tracker := (setKey st.tracker st.currentEpic
        (mark ((getKey st.tracker st.currentEpic).getD ⟨false, false, false⟩))) }
    match parseCell c with
    | none => .error .invalidEstimate
    | some q =>
      .ok ({ st1 with
              records := st1.records ++ [storyRecord st.currentEpic row comp c] }, q)

/-- Sets the Server flag (app.py line 116). -/
def markServer (f : Flags) : Flags := { f with server := true }

/-- Sets the iOS flag (app.py line 131). -/
def markIOS (f : Flags) : Flags := { f with ios := true }

/-- Sets the Android flag (app.py line 146). -/
def markAndroid (f : Flags) : Flags := { f with android := true }

/-- One iteration of the `dataframeprocess` row loop (app.py lines
86-161): an Epic row resets the current epic context and its aggregate;
a Story row requires a current epic (else `orphanStory` with the row
index) and processes the platforms in the fixed order Server, iOS,
Android, finally adding the sum of the parsed estimates to the current
epic's running total; any other row is skipped. -/
def processRow (st : PState) (idx : ℕ) (row : Row) : Except Err PState :=
  match row.EPIC with
  | some e =>
    .ok { currentEpic := e,
          estimates := setKey st.estimates e 0,
          tracker := setKey st.tracker e ⟨false, false, false⟩,
          records := st.records ++ [epicRecord e row] }
  | none =>
    match row.SUMMARY with
    | none => .ok st
    | some _ =>
      if st.currentEpic = "" then .error (.orphanStory idx)
      else
        match procPlat st row row.SERV "Server" markServer with
        | .error e => .error e
        | .ok (st1, q1) =>
          match procPlat st1 row row.IOS "iOS" markIOS with
          | .error e => .error e
          | .ok (st2, q2) =>
            match procPlat st2 row row.AND "Android" markAndroid with
            | .error e => .error e
            | .ok (st3, q3) =>
              .ok { st3 with estimates := (setKey st3.estimates st3.currentEpic
                      ((getKey st3.estimates st3.currentEpic).getD 0 + (q1 + q2 + q3))) }

/-- The row loop of `dataframeprocess` over the remaining rows, with the
positional index of the next row. -/
def processRows (st : PState) (idx : ℕ) : List Row → Except Err PState
  | [] => .ok st
  | r :: rs =>
    match processRow st idx r with
    | .error e => .error e
    | .ok st1 => processRows st1 (idx + 1) rs

/-- Stage 2, `dataframeprocess` (app.py lines 58-164): runs the row loop
from the initial state and returns the records together with the two
per-epic aggregate dicts. -/
def dataframeprocess (rows : List Row) :
    Except Err (List Record × List (String × ℚ) × List (String × Flags)) :=
  match processRows initState 0 rows with
  | .error e => .error e
  | .ok st => .ok (st.records, st.estimates, st.tracker)

/-- Round to the nearest integer with ties to even: the semantics of
`Series.round()` (numpy `rint`) used at app.py lines 189-191. -/
def roundHalfEven (q : ℚ) : ℤ :=
  if q - ⌊q⌋ < 1 / 2 then ⌊q⌋
  else if 1 / 2 < q - ⌊q⌋ then ⌊q⌋ + 1
  else if ⌊q⌋ % 2 = 0 then ⌊q⌋ else ⌊q⌋ + 1

/-- Back-fill step (app.py lines 174-176): an Epic record whose name is
a key of `epic_estimates` receives the accumulated sum. -/
def backfillEpic (est : List (String × ℚ)) (r : Record) : Record :=
  if r.issueType = "Epic" then
    match getKey est r.epicName with
    | some q => { r with originalEstimate := .num q }
    | none => r
  else r

/-- Float conversion of an `Original Estimate` cell (app.py lines
179-183): `""` becomes `0`, a raw cell goes through `float(...)`. -/
def toDays : EstVal → Except Err ℚ
  | .empty => .ok 0
  | .num q => .ok q
  | .raw c =>
    match parseCell c with
    | some q => .ok q
    | none => .error .invalidEstimate

/-- Finalization of one record (app.py lines 173-206): back-fill, float
conversion, day-to-second scaling by `8 * 3600`, rounding, duplication
of the components column, and the per-epic rewrite of the three
components columns from the tracker flags (Android, iOS, Server). -/
def finalizeRecord (est : List (String × ℚ)) (trk : List (String × Flags))
    (r0 : Record) : Except Err FinalRecord :=
  let r := backfillEpic est r0
  match toDays r.originalEstimate with
  | .error e => .error e
  | .ok d =>
    let secs := roundHalfEven (d * 8 * 3600)
    if r.issueType = "Epic" then
      let fl := (getKey trk r.epicName).getD ⟨false, false, false⟩
      .ok { issueType := r.issueType, epicName := r.epicName,
            epicLink := r.epicLink, summary := r.summary,
            description := r.description,
            components := if fl.android then "Android" else "",
            originalEstimate := secs,
            components1 := if fl.ios then "iOS" else "",
            components2 := if fl.server then "Server" else "" }
    else
      .ok { issueType := r.issueType, epicName := r.epicName,
            epicLink := r.epicLink, summary := r.summary,
            description := r.description,
            components := r.components,
            originalEstimate := secs,
            components1 := r.components,
            components2 := r.components }

/-- Finalization of every record in order, aborting on the first error
(the first `float(...)` failure aborts the whole `postprocess` loop). -/
def finalizeAll (est : List (String × ℚ)) (trk : List (String × Flags)) :
    List Record → Except Err (List FinalRecord)
  | [] => .ok []
  | r :: rs =>
    match finalizeRecord est trk r with
    | .error e => .error e
    | .ok fr =>
      match finalizeAll est trk rs with
      | .error e => .error e
      | .ok frs => .ok (fr :: frs)

/-- Stage 3, `postprocess` (app.py lines 167-208). -/
def postprocess (recs : List Record) (est : List (String × ℚ))
    (trk : List (String × Flags)) : Except Err (List FinalRecord) :=
  finalizeAll est trk recs

/-- The full conversion pipeline as run by `preprocess_file`
(app.py lines 219-222): `preprocess`, `dataframeprocess`, `postprocess`
in sequence, any error aborting the whole conversion with no output. -/
def convert (data : List Row) : Except Err (List FinalRecord) :=
  match preprocess data with
  | .error e => .error e
  | .ok rows =>
    match dataframeprocess rows with
    | .error e => .error e
    | .ok (recs, est, trk) => postprocess recs est trk

/-- The seven columns of the intermediate frame (app.py lines 74-82). -/
def columns : List String :=
  ["Issue Type", "Epic Name", "Epic Link", "Summary", "Description",
   "Components", "Original Estimate"]

/-- The columns of the finished frame: the two components copies are
appended after the existing columns (app.py lines 194-195), so they
follow `Original Estimate`. -/
def outputColumns : List String := columns ++ ["Components 1", "Components 2"]

/-- The cells of one finished record, aligned with `outputColumns`
(NaN text cells serialize as empty). -/
def FinalRecord.cells (r : FinalRecord) : List String :=
  [r.issueType, r.epicName, r.epicLink, r.summary.getD "",
   r.description.getD "", r.components, toString r.originalEstimate,
   r.components1, r.components2]

/-- Whether a record is an Epic record. -/
def Record.isEpic (r : Record) : Bool := r.issueType = "Epic"

/-- Whether a record is a Story record. -/
def Record.isStory (r : Record) : Bool := r.issueType = "Story"

/-- The pre-conversion day value a record contributes: the parsed raw
cell for a Story record, the back-filled number for a back-filled Epic
record, `0` for a fresh Epic record. -/
def Record.estDays (r : Record) : ℚ :=
  match r.originalEstimate with
  | .empty => 0
  | .raw c => (parseCell c).getD 0
  | .num q => q

/-- Sum, in day units, of the estimates of the Story records linked to
the given epic name. -/
def storySum (recs : List Record) (name : String) : ℚ :=
  ((recs.filter (fun r => r.isStory && r.epicLink == name)).map Record.estDays).sum

/-- A canonical sentinel row: `EPIC = "END"`, all other cells NaN. -/
def endRow : Row := { EPIC := some "END", SUMMARY := none, IOS := none,
                      AND := none, SERV := none, NOTES := none }

/-- Whether a row has a populated platform cell that `float(...)`
rejects. -/
def badOpt : Option Cell → Bool
  | none => false
  | some c => (parseCell c).isNone

/-- Whether any of the three platform cells of a row is populated but
not parseable as a number. -/
def Row.hasBadCell (r : Row) : Bool :=
  badOpt r.SERV || badOpt r.IOS || badOpt r.AND

/-! ### Association-list (dict) lemmas -/

lemma getKey_setKey_self {α : Type} (m : List (String × α)) (k : String) (v : α) :
    getKey (setKey m k v) k = some v := by
  induction m with
  | nil => simp [setKey, getKey]
  | cons p ps ih =>
    by_cases h : p.1 = k
    · simp [setKey, getKey, h]
    · simp [setKey, getKey, h, ih]

lemma getKey_setKey_ne {α : Type} (m : List (String × α)) (k n : String) (v : α)
    (h : k ≠ n) : getKey (setKey m k v) n = getKey m n := by
  induction m with
  | nil => simp [setKey, getKey, h]
  | cons p ps ih =>
    by_cases hp : p.1 = k
    · simp [setKey, getKey, hp, h]
    · simp [setKey, getKey, hp, ih]

lemma isSome_getKey_setKey {α : Type} (m : List (String × α)) (k n : String) (v : α) :
    (getKey (setKey m k v) n).isSome = true ↔ n = k ∨ (getKey m n).isSome = true := by
  by_cases h : k = n
  · subst h
    simp [getKey_setKey_self]
  · rw [getKey_setKey_ne m k n v h]
    constructor
    · exact Or.inr
    · rintro (rfl | hs)
      · exact absurd rfl h
      · exact hs

/-! ### Rounding lemmas -/

lemma roundHalfEven_near (q : ℚ) (n : ℤ) (h1 : (n : ℚ) - 1 / 2 < q)
    (h2 : q < (n : ℚ) + 1 / 2) : roundHalfEven q = n := by
  rcases le_or_lt (n : ℚ) q with hq | hq
  · have hf : ⌊q⌋ = n := Int.floor_eq_iff.mpr ⟨hq, by linarith⟩
    rw [roundHalfEven, hf, if_pos (by linarith)]
  · have hf : ⌊q⌋ = n - 1 := Int.floor_eq_iff.mpr ⟨by push_cast; linarith, by push_cast; linarith⟩
    rw [roundHalfEven, hf, if_neg (by push_cast; linarith), if_pos (by push_cast; linarith)]
    omega

lemma roundHalfEven_int (n : ℤ) : roundHalfEven ((n : ℤ) : ℚ) = n :=
  roundHalfEven_near _ _ (by linarith) (by linarith)

lemma roundHalfEven_tie (n : ℤ) :
    roundHalfEven ((n : ℚ) + 1 / 2) = if n % 2 = 0 then n else n + 1 := by
  have hf : ⌊(n : ℚ) + 1 / 2⌋ = n := Int.floor_eq_iff.mpr ⟨by linarith, by linarith⟩
  rw [roundHalfEven, hf, if_neg (by linarith), if_neg (by linarith)]

/-! ### Characterization of the row-processing step -/

lemma procPlat_error (st : PState) (row : Row) (cell : Option Cell) (comp : String)
    (mark : Flags → Flags) (e : Err)
    (h : procPlat st row cell comp mark = .error e) : e = .invalidEstimate := by
  cases cell with
  | none => simp [procPlat] at h
  | some c =>
    cases hp : parseCell c with
    | none => simp [procPlat, hp] at h; exact h.symm
    | some q => simp [procPlat, hp] at h

lemma procPlat_ok (st : PState) (row : Row) (cell : Option Cell) (comp : String)
    (mark : Flags → Flags) (st1 : PState) (q : ℚ)
    (h : procPlat st row cell comp mark = .ok (st1, q)) :
    st1.currentEpic = st.currentEpic ∧ st1.estimates = st.estimates ∧
    st1.records = st.records ++ platformRecords st.currentEpic row comp cell ∧
    q = cellDays cell ∧
    (st1.tracker = st.tracker ∨
      ∃ fl, st1.tracker = setKey st.tracker st.currentEpic fl) ∧
    badOpt cell = false := by
  cases cell with
  | none =>
    simp only [procPlat, Except.ok.injEq, Prod.mk.injEq] at h
    obtain ⟨h1, h2⟩ := h
    subst h1; subst h2
    simp [platformRecords, cellDays, badOpt]
  | some c =>
    cases hp : parseCell c with
    | none => simp [procPlat, hp] at h
    | some q0 =>
      simp only [procPlat, hp, Except.ok.injEq, Prod.mk.injEq] at h
      obtain ⟨h1, h2⟩ := h
      subst h2
      subst h1
      exact ⟨rfl, rfl, by simp [platformRecords], by simp [cellDays, hp],
        Or.inr ⟨_, rfl⟩, by simp [badOpt, hp]⟩

lemma procPlat_success (st : PState) (row : Row) (cell : Option Cell) (comp : String)
    (mark : Flags → Flags) (h : badOpt cell = false) :
    ∃ st1 q, procPlat st row cell comp mark = .ok (st1, q) := by
  cases cell with
  | none => exact ⟨st, 0, rfl⟩
  | some c =>
    cases hp : parseCell c with
    | none => simp [badOpt, hp] at h
    | some q0 =>
      simp only [procPlat, hp]
      exact ⟨_, _, rfl⟩

lemma processRow_epic (st : PState) (idx : ℕ) (row : Row) (e : String)
    (h : row.EPIC = some e) :
    processRow st idx row =
      .ok { currentEpic := e, estimates := setKey st.estimates e 0,
            tracker := setKey st.tracker e ⟨false, false, false⟩,
            records := st.records ++ [epicRecord e row] } := by
  simp [processRow, h]

lemma processRow_skip (st : PState) (idx : ℕ) (row : Row)
    (hE : row.EPIC = none) (hS : row.SUMMARY = none) :
    processRow st idx row = .ok st := by
  simp [processRow, hE, hS]

lemma processRow_orphan (st : PState) (idx : ℕ) (row : Row) (s : String)
    (hE : row.EPIC = none) (hS : row.SUMMARY = some s) (hc : st.currentEpic = "") :
    processRow st idx row = .error (.orphanStory idx) := by
  simp [processRow, hE, hS, hc]

lemma processRow_story (st : PState) (idx : ℕ) (row : Row) (s : String)
    (hE : row.EPIC = none) (hS : row.SUMMARY = some s) (hc : st.currentEpic ≠ "")
    (hb : row.hasBadCell = false) :
    ∃ st1, processRow st idx row = .ok st1 ∧
      st1.currentEpic = st.currentEpic ∧
      st1.records = st.records
        ++ platformRecords st.currentEpic row "Server" row.SERV
        ++ platformRecords st.currentEpic row "iOS" row.IOS
        ++ platformRecords st.currentEpic row "Android" row.AND ∧
      st1.estimates = setKey st.estimates st.currentEpic
        ((getKey st.estimates st.currentEpic).getD 0 +
          (cellDays row.SERV + cellDays row.IOS + cellDays row.AND)) ∧
      (∀ n, (getKey st.tracker n).isSome = true → (getKey st1.tracker n).isSome = true) ∧
      (∀ n, (getKey st1.tracker n).isSome = true →
        (getKey st.tracker n).isSome = true ∨ n = st.currentEpic) := by
  simp only [Row.hasBadCell, Bool.or_eq_false_iff] at hb
  obtain ⟨⟨hbS, hbI⟩, hbA⟩ := hb
  obtain ⟨st1, q1, h1⟩ := procPlat_success st row row.SERV "Server" markServer hbS
  obtain ⟨c1, e1, r1, d1, t1, _⟩ := procPlat_ok st row row.SERV "Server" markServer st1 q1 h1
  obtain ⟨st2, q2, h2⟩ := procPlat_success st1 row row.IOS "iOS" markIOS hbI
  obtain ⟨c2, e2, r2, d2, t2, _⟩ := procPlat_ok st1 row row.IOS "iOS" markIOS st2 q2 h2
  obtain ⟨st3, q3, h3⟩ := procPlat_success st2 row row.AND "Android" markAndroid hbA
  obtain ⟨c3, e3, r3, d3, t3, _⟩ := procPlat_ok st2 row row.AND "Android" markAndroid st3 q3 h3
  have htrk : ∀ (a b : PState),
      (b.tracker = a.tracker ∨ ∃ fl, b.tracker = setKey a.tracker a.currentEpic fl) →
      (∀ n, (getKey a.tracker n).isSome = true → (getKey b.tracker n).isSome = true) ∧
      (∀ n, (getKey b.tracker n).isSome = true →
        (getKey a.tracker n).isSome = true ∨ n = a.currentEpic) := by
    rintro a b (hb | ⟨fl, hb⟩)
    · rw [hb]; exact ⟨fun n h => h, fun n h => Or.inl h⟩
    · constructor
      · intro n h
        rw [hb, isSome_getKey_setKey]
        exact Or.inr h
      · intro n h
        rw [hb, isSome_getKey_setKey] at h
        exact h.symm
  have hcur3 : st3.currentEpic = st.currentEpic := c3.trans (c2.trans c1)
  refine ⟨{ st3 with estimates := (setKey st3.estimates st3.currentEpic
    ((getKey st3.estimates st3.currentEpic).getD 0 + (q1 + q2 + q3))) },
    ?_, ?_, ?_, ?_, ?_, ?_⟩
  · simp only [processRow, hE, hS, if_neg hc, h1, h2, h3]
  · exact hcur3
  · show st3.records = _
    rw [r3, r2, r1, c1, c2.trans c1]
  · show setKey st3.estimates st3.currentEpic _ = _
    rw [e3, e2, e1, hcur3, d1, d2, d3]
  · intro n h
    have g1 := (htrk st st1 t1).1 n h
    have g2 := (htrk st1 st2 t2).1 n g1
    exact (htrk st2 st3 t3).1 n g2
  · intro n h
    rcases (htrk st2 st3 t3).2 n h with h2' | h2'
    · rcases (htrk st1 st2 t2).2 n h2' with h1' | h1'
      · rcases (htrk st st1 t1).2 n h1' with h0 | h0
        · exact Or.inl h0
        · exact Or.inr h0
      · exact Or.inr (h1'.trans c1)
    · exact Or.inr (h2'.trans (c2.trans c1))

lemma processRow_story_bad (st : PState) (idx : ℕ) (row : Row) (s : String)
    (hE : row.EPIC = none) (hS : row.SUMMARY = some s) (hc : st.currentEpic ≠ "")
    (hb : row.hasBadCell = true) :
    processRow st idx row = .error .invalidEstimate := by
  simp only [processRow, hE, hS, if_neg hc]
  cases hps : procPlat st row row.SERV "Server" markServer with
  | error e =>
    have he := procPlat_error st row row.SERV "Server" markServer e hps
    subst he
    simp [hps]
  | ok p =>
    obtain ⟨st1, q1⟩ := p
    obtain ⟨c1, _, _, _, _, hgood1⟩ := procPlat_ok st row row.SERV "Server" markServer st1 q1 hps
    simp only [hps]
    cases hpi : procPlat st1 row row.IOS "iOS" markIOS with
    | error e =>
      have he := procPlat_error st1 row row.IOS "iOS" markIOS e hpi
      subst he
      simp [hpi]
    | ok p2 =>
      obtain ⟨st2, q2⟩ := p2
      obtain ⟨c2, _, _, _, _, hgood2⟩ := procPlat_ok st1 row row.IOS "iOS" markIOS st2 q2 hpi
      simp only [hpi]
      cases hpa : procPlat st2 row row.AND "Android" markAndroid with
      | error e =>
        have he := procPlat_error st2 row row.AND "Android" markAndroid e hpa
        subst he
        simp [hpa]
      | ok p3 =>
        obtain ⟨st3, q3⟩ := p3
        obtain ⟨c3, _, _, _, _, hgood3⟩ :=
          procPlat_ok st2 row row.AND "Android" markAndroid st3 q3 hpa
        exfalso
        simp only [Row.hasBadCell, hgood1, hgood2, hgood3] at hb
        simp at hb

lemma processRow_error (st : PState) (idx : ℕ) (row : Row) (e : Err)
    (h : processRow st idx row = .error e) :
    e = .invalidEstimate ∨ ∃ k, e = .orphanStory k := by
  cases hE : row.EPIC with
  | some ep => rw [processRow_epic st idx row ep hE] at h; exact absurd h (by simp)
  | none =>
    cases hS : row.SUMMARY with
    | none => rw [processRow_skip st idx row hE hS] at h; exact absurd h (by simp)
    | some s =>
      by_cases hc : st.currentEpic = ""
      · rw [processRow_orphan st idx row s hE hS hc] at h
        exact Or.inr ⟨idx, by injection h.symm⟩
      · simp only [processRow, hE, hS, if_neg hc] at h
        cases hps : procPlat st row row.SERV "Server" markServer with
        | error e1 =>
          simp only [hps, Except.error.injEq] at h
          exact Or.inl (h ▸ procPlat_error st row row.SERV "Server" markServer e1 hps)
        | ok p =>
          obtain ⟨st1, q1⟩ := p
          simp only [hps] at h
          cases hpi : procPlat st1 row row.IOS "iOS" markIOS with
          | error e2 =>
            simp only [hpi, Except.error.injEq] at h
            exact Or.inl (h ▸ procPlat_error st1 row row.IOS "iOS" markIOS e2 hpi)
          | ok p2 =>
            obtain ⟨st2, q2⟩ := p2
            simp only [hpi] at h
            cases hpa : procPlat st2 row row.AND "Android" markAndroid with
            | error e3 =>
              simp only [hpa, Except.error.injEq] at h
              exact Or.inl (h ▸ procPlat_error st2 row row.AND "Android" markAndroid e3 hpa)
            | ok p3 =>
              obtain ⟨st3, q3⟩ := p3
              simp only [hpa] at h
              exact absurd h (by simp)

/-! ### Lemmas about the structural normalizer -/

lemma firstEndIdx_none (l : List Row) (h : ∀ r ∈ l, r.EPIC ≠ some "END") :
    firstEndIdx l = none := by
  induction l with
  | nil => rfl
  | cons r rs ih =>
    rw [firstEndIdx, if_neg (h r (List.mem_cons_self r rs))]
    rw [ih (fun x hx => h x (List.mem_cons_of_mem r hx))]
    rfl

lemma firstEndIdx_append_end (l : List Row) (h : ∀ r ∈ l, r.EPIC ≠ some "END") :
    firstEndIdx (l ++ [endRow]) = some l.length := by
  induction l with
  | nil => rfl
  | cons r rs ih =>
    rw [List.cons_append, firstEndIdx, if_neg (h r (List.mem_cons_self r rs))]
    rw [ih (fun x hx => h x (List.mem_cons_of_mem r hx))]
    rfl

lemma firstEndIdx_take (l : List Row) (i : ℕ) (h : firstEndIdx l = some i) :
    ∀ r ∈ l.take i, r.EPIC ≠ some "END" := by
  induction l generalizing i with
  | nil => simp
  | cons r rs ih =>
    by_cases hr : r.EPIC = some "END"
    · rw [firstEndIdx, if_pos hr] at h
      injection h with h
      subst h
      simp
    · rw [firstEndIdx, if_neg hr] at h
      cases hj : firstEndIdx rs with
      | none => rw [hj] at h; simp at h
      | some j =>
        rw [hj] at h
        injection h with h
        subst h
        intro x hx
        rw [List.take_succ_cons] at hx
        rcases List.mem_cons.mp hx with hx | hx
        · subst hx; exact hr
        · exact ih j hj x hx

lemma preprocess_ok (data t : List Row) (h : preprocess data = .ok t) :
    ¬ data.length < 2 ∧
    ∃ i, firstEndIdx (normalizedRows data) = some i ∧
      t = (normalizedRows data).take i := by
  by_cases hl : data.length < 2
  · rw [preprocess, if_pos hl] at h
    exact absurd h (by simp)
  · rw [preprocess, if_neg hl] at h
    cases hi : firstEndIdx (normalizedRows data) with
    | none => rw [hi] at h; exact absurd h (by simp)
    | some i =>
      rw [hi] at h
      refine ⟨hl, i, rfl, ?_⟩
      injection h with h
      exact h.symm

lemma preprocess_ok_props (data t : List Row) (h : preprocess data = .ok t) :
    (∀ r ∈ t, r.isAllEmpty = false) ∧ (∀ r ∈ t, r.EPIC ≠ some "END") := by
  obtain ⟨-, i, hi, ht⟩ := preprocess_ok data t h
  constructor
  · intro r hr
    rw [ht] at hr
    have hr2 := List.mem_of_mem_take hr
    simp only [normalizedRows] at hr2
    have := List.of_mem_filter hr2
    simpa using this
  · intro r hr
    rw [ht] at hr
    exact firstEndIdx_take _ i hi r hr

/-! ### Lemmas about story sums and the loop invariants -/

lemma storySum_nil (n : String) : storySum [] n = 0 := rfl

lemma storySum_append (a b : List Record) (n : String) :
    storySum (a ++ b) n = storySum a n + storySum b n := by
  simp [storySum, List.filter_append]

lemma storySum_platform (name : String) (row : Row) (comp : String)
    (cell : Option Cell) (n : String) :
    storySum (platformRecords name row comp cell) n =
      if name = n then cellDays cell else 0 := by
  cases cell with
  | none => simp [platformRecords, storySum, cellDays]
  | some c =>
    by_cases hn : name = n
    · simp [platformRecords, storySum, storyRecord, Record.isStory, Record.estDays,
        cellDays, hn]
    · simp [platformRecords, storySum, storyRecord, Record.isStory, hn]

lemma storySum_epicRecord (e : String) (row : Row) (n : String) :
    storySum [epicRecord e row] n = 0 := by
  simp [storySum, epicRecord, Record.isStory]

lemma storySum_eq_zero (recs : List Record) (n : String)
    (h : ∀ r ∈ recs, r.isStory = true → r.epicLink ≠ n) : storySum recs n = 0 := by
  have : recs.filter (fun r => r.isStory && r.epicLink == n) = [] := by
    rw [List.filter_eq_nil_iff]
    intro r hr
    simp only [Bool.and_eq_true, beq_iff_eq, not_and]
    intro hs
    exact fun he => h r hr hs he
  simp [storySum, this]

/-- The bookkeeping invariant of the `dataframeprocess` loop: every Story
record's epic link and every Epic record's name is a key of the
aggregate dicts, and the current epic (when set) is a key of
`epic_estimates`. -/
def DeclaredInv (st : PState) : Prop :=
  (∀ r ∈ st.records, r.isStory = true → (getKey st.estimates r.epicLink).isSome = true) ∧
  (∀ r ∈ st.records, r.isEpic = true → (getKey st.estimates r.epicName).isSome = true ∧
    (getKey st.tracker r.epicName).isSome = true) ∧
  (st.currentEpic ≠ "" → (getKey st.estimates st.currentEpic).isSome = true)

/-- The aggregation invariant: every entry of `epic_estimates` equals
the sum of the estimates of the Story records emitted so far for that
epic name. -/
def EstInv (st : PState) : Prop :=
  ∀ n q, getKey st.estimates n = some q → q = storySum st.records n

lemma mem_platformRecords {r : Record} {name : String} {row : Row} {comp : String}
    {cell : Option Cell} (h : r ∈ platformRecords name row comp cell) :
    ∃ c, cell = some c ∧ r = storyRecord name row comp c := by
  cases cell with
  | none => simp [platformRecords] at h
  | some c =>
    simp only [platformRecords, List.mem_singleton] at h
    exact ⟨c, rfl, h⟩

lemma processRow_declared (st st1 : PState) (idx : ℕ) (row : Row)
    (h : processRow st idx row = .ok st1) (hd : DeclaredInv st) :
    DeclaredInv st1 ∧
    (∀ n, (getKey st.estimates n).isSome = true →
      (getKey st1.estimates n).isSome = true) := by
  obtain ⟨hstory, hepic, hcur⟩ := hd
  cases hE : row.EPIC with
  | some e =>
    rw [processRow_epic st idx row e hE] at h
    injection h with h
    subst h
    refine ⟨⟨?_, ?_, ?_⟩, ?_⟩
    · intro r hr hs
      rcases List.mem_append.mp hr with hr | hr
      · exact (isSome_getKey_setKey _ _ _ _).mpr (Or.inr (hstory r hr hs))
      · rw [List.mem_singleton] at hr
        subst hr
        simp [epicRecord, Record.isStory] at hs
    · intro r hr he
      rcases List.mem_append.mp hr with hr | hr
      · exact ⟨(isSome_getKey_setKey _ _ _ _).mpr (Or.inr (hepic r hr he).1),
          (isSome_getKey_setKey _ _ _ _).mpr (Or.inr (hepic r hr he).2)⟩
      · rw [List.mem_singleton] at hr
        subst hr
        constructor
        · show (getKey (setKey st.estimates e 0) e).isSome = true
          rw [getKey_setKey_self]; rfl
        · show (getKey (setKey st.tracker e ⟨false, false, false⟩) e).isSome = true
          rw [getKey_setKey_self]; rfl
    · intro _
      show (getKey (setKey st.estimates e 0) e).isSome = true
      rw [getKey_setKey_self]; rfl
    · intro n hn
      exact (isSome_getKey_setKey _ _ _ _).mpr (Or.inr hn)
  | none =>
    cases hS : row.SUMMARY with
    | none =>
      rw [processRow_skip st idx row hE hS] at h
      injection h with h
      subst h
      exact ⟨⟨hstory, hepic, hcur⟩, fun n hn => hn⟩
    | some s =>
      by_cases hc : st.currentEpic = ""
      · rw [processRow_orphan st idx row s hE hS hc] at h
        exact absurd h (by simp)
      · cases hb : row.hasBadCell with
        | true =>
          rw [processRow_story_bad st idx row s hE hS hc hb] at h
          exact absurd h (by simp)
        | false =>
          obtain ⟨st1', heq, hcur', hrec, hest, htm, htb⟩ :=
            processRow_story st idx row s hE hS hc hb
          rw [heq] at h
          injection h with h
          subst h
          refine ⟨⟨?_, ?_, ?_⟩, ?_⟩
          · intro r hr hs
            rw [hrec] at hr
            rw [hest]
            rcases List.mem_append.mp hr with hr | hr
            · rcases List.mem_append.mp hr with hr | hr
              · rcases List.mem_append.mp hr with hr | hr
                · exact (isSome_getKey_setKey _ _ _ _).mpr (Or.inr (hstory r hr hs))
                · obtain ⟨c, -, hrr⟩ := mem_platformRecords hr
                  subst hrr
                  show (getKey (setKey st.estimates st.currentEpic _)
                    st.currentEpic).isSome = true
                  rw [getKey_setKey_self]; rfl
              · obtain ⟨c, -, hrr⟩ := mem_platformRecords hr
                subst hrr
                show (getKey (setKey st.estimates st.currentEpic _)
                  st.currentEpic).isSome = true
                rw [getKey_setKey_self]; rfl
            · obtain ⟨c, -, hrr⟩ := mem_platformRecords hr
              subst hrr
              show (getKey (setKey st.estimates st.currentEpic _)
                st.currentEpic).isSome = true
              rw [getKey_setKey_self]; rfl
          · intro r hr he
            rw [hrec] at hr
            rcases List.mem_append.mp hr with hr | hr
            · rcases List.mem_append.mp hr with hr | hr
              · rcases List.mem_append.mp hr with hr | hr
                · refine ⟨?_, htm _ (hepic r hr he).2⟩
                  rw [hest]
                  exact (isSome_getKey_setKey _ _ _ _).mpr (Or.inr (hepic r hr he).1)
                · obtain ⟨c, -, hrr⟩ := mem_platformRecords hr
                  subst hrr
                  simp [storyRecord, Record.isEpic] at he
              · obtain ⟨c, -, hrr⟩ := mem_platformRecords hr
                subst hrr
                simp [storyRecord, Record.isEpic] at he
            · obtain ⟨c, -, hrr⟩ := mem_platformRecords hr
              subst hrr
              simp [storyRecord, Record.isEpic] at he
          · intro hne
            rw [hcur', hest]
            show (getKey (setKey st.estimates st.currentEpic _)
              st.currentEpic).isSome = true
            rw [getKey_setKey_self]; rfl
          · intro n hn
            rw [hest]
            exact (isSome_getKey_setKey _ _ _ _).mpr (Or.inr hn)

lemma processRows_declared (rows : List Row) : ∀ (st : PState) (idx : ℕ) (st2 : PState),
    processRows st idx rows = .ok st2 → DeclaredInv st →
    DeclaredInv st2 ∧
    (∀ n, (getKey st.estimates n).isSome = true →
      (getKey st2.estimates n).isSome = true) := by
  induction rows with
  | nil =>
    intro st idx st2 h hd
    simp only [processRows, Except.ok.injEq] at h
    subst h
    exact ⟨hd, fun n hn => hn⟩
  | cons r rs ih =>
    intro st idx st2 h hd
    simp only [processRows] at h
    cases hm : processRow st idx r with
    | error e => rw [hm] at h; exact absurd h (by simp)
    | ok stm =>
      rw [hm] at h
      obtain ⟨hd1, hmono1⟩ := processRow_declared st stm idx r hm hd
      obtain ⟨hd2, hmono2⟩ := ih stm (idx + 1) st2 h hd1
      exact ⟨hd2, fun n hn => hmono2 n (hmono1 n hn)⟩

lemma processRow_estInv (st st1 : PState) (idx : ℕ) (row : Row)
    (h : processRow st idx row = .ok st1) (hd : DeclaredInv st) (hi : EstInv st)
    (hfresh : ∀ e, row.EPIC = some e → getKey st.estimates e = none) :
    EstInv st1 := by
  obtain ⟨hstory, hepic, hcur⟩ := hd
  cases hE : row.EPIC with
  | some e =>
    rw [processRow_epic st idx row e hE] at h
    injection h with h
    subst h
    intro n q hq
    show q = storySum (st.records ++ [epicRecord e row]) n
    rw [storySum_append, storySum_epicRecord, add_zero]
    by_cases hn : n = e
    · subst hn
      rw [show getKey (setKey st.estimates n 0) n = some 0 from getKey_setKey_self _ _ _] at hq
      injection hq with hq
      subst hq
      refine (storySum_eq_zero st.records n ?_).symm
      intro r hr hs hlink
      have := hstory r hr hs
      rw [hlink, hfresh n hE] at this
      simp at this
    · rw [show getKey (setKey st.estimates e 0) n = getKey st.estimates n from
        getKey_setKey_ne _ _ _ _ (fun he => hn he.symm)] at hq
      exact hi n q hq
  | none =>
    cases hS : row.SUMMARY with
    | none =>
      rw [processRow_skip st idx row hE hS] at h
      injection h with h
      subst h
      exact hi
    | some s =>
      by_cases hc : st.currentEpic = ""
      · rw [processRow_orphan st idx row s hE hS hc] at h
        exact absurd h (by simp)
      · cases hb : row.hasBadCell with
        | true =>
          rw [processRow_story_bad st idx row s hE hS hc hb] at h
          exact absurd h (by simp)
        | false =>
          obtain ⟨st1', heq, hcur', hrec, hest, htm, htb⟩ :=
            processRow_story st idx row s hE hS hc hb
          rw [heq] at h
          injection h with h
          subst h
          intro n q hq
          rw [hrec, storySum_append, storySum_append, storySum_append,
            storySum_platform, storySum_platform, storySum_platform]
          obtain ⟨q0, hq0⟩ := Option.isSome_iff_exists.mp (hcur hc)
          by_cases hn : n = st.currentEpic
          · subst hn
            rw [hest, getKey_setKey_self] at hq
            injection hq with hq
            subst hq
            rw [hq0, hi st.currentEpic q0 hq0]
            simp only [Option.getD_some, eq_self_iff_true, if_true]
            ring
          · rw [hest, getKey_setKey_ne _ _ _ _ (fun he => hn he.symm)] at hq
            rw [if_neg (fun he => hn he.symm), if_neg (fun he => hn he.symm),
              if_neg (fun he => hn he.symm)]
            rw [hi n q hq]
            ring

lemma processRows_estInv (rows : List Row) : ∀ (st : PState) (idx : ℕ) (st2 : PState),
    processRows st idx rows = .ok st2 →
    (rows.filterMap (fun r => r.EPIC)).Nodup →
    (∀ n, (getKey st.estimates n).isSome = true →
      n ∉ rows.filterMap (fun r => r.EPIC)) →
    DeclaredInv st → EstInv st →
    EstInv st2 := by
  induction rows with
  | nil =>
    intro st idx st2 h _ _ _ hi
    simp only [processRows, Except.ok.injEq] at h
    subst h
    exact hi
  | cons r rs ih =>
    intro st idx st2 h hnd hdis hd hi
    simp only [processRows] at h
    cases hm : processRow st idx r with
    | error e => rw [hm] at h; exact absurd h (by simp)
    | ok stm =>
      rw [hm] at h
      have hfresh : ∀ e, r.EPIC = some e → getKey st.estimates e = none := by
        intro e hE
        cases hg : getKey st.estimates e with
        | none => rfl
        | some v =>
          exfalso
          have hmem : e ∈ (r :: rs).filterMap (fun r => r.EPIC) := by
            simp [List.filterMap_cons, hE]
          exact hdis e (by rw [hg]; rfl) hmem
      have hd1 := (processRow_declared st stm idx r hm hd).1
      have hi1 := processRow_estInv st stm idx r hm hd hi hfresh
      refine ih stm (idx + 1) st2 h ?_ ?_ hd1 hi1
      · cases hE : r.EPIC with
        | some e =>
          rw [show (r :: rs).filterMap (fun r => r.EPIC) =
            e :: rs.filterMap (fun r => r.EPIC) by simp [List.filterMap_cons, hE]] at hnd
          exact (List.nodup_cons.mp hnd).2
        | none =>
          rw [show (r :: rs).filterMap (fun r => r.EPIC) =
            rs.filterMap (fun r => r.EPIC) by simp [List.filterMap_cons, hE]] at hnd
          exact hnd
      · intro n hn
        cases hE : r.EPIC with
        | some e =>
          rw [processRow_epic st idx r e hE] at hm
          injection hm with hm
          have hkeys : n = e ∨ (getKey st.estimates n).isSome = true := by
            rw [← hm] at hn
            exact (isSome_getKey_setKey _ _ _ _).mp hn
          have hcons : (r :: rs).filterMap (fun r => r.EPIC) =
              e :: rs.filterMap (fun r => r.EPIC) := by simp [List.filterMap_cons, hE]
          rcases hkeys with hk | hk
          · subst hk
            rw [hcons] at hnd
            exact (List.nodup_cons.mp hnd).1
          · have := hdis n hk
            rw [hcons] at this
            exact fun hmem => this (List.mem_cons_of_mem e hmem)
        | none =>
          have hcons : (r :: rs).filterMap (fun r => r.EPIC) =
              rs.filterMap (fun r => r.EPIC) := by simp [List.filterMap_cons, hE]
          have hback : (getKey st.estimates n).isSome = true := by
            cases hS : r.SUMMARY with
            | none =>
              rw [processRow_skip st idx r hE hS] at hm
              injection hm with hm
              rw [← hm] at hn
              exact hn
            | some s =>
              by_cases hc : st.currentEpic = ""
              · rw [processRow_orphan st idx r s hE hS hc] at hm
                exact absurd hm (by simp)
              · cases hb : r.hasBadCell with
                | true =>
                  rw [processRow_story_bad st idx r s hE hS hc hb] at hm
                  exact absurd hm (by simp)
                | false =>
                  obtain ⟨st1', heq, hcur', hrec, hest, htm, htb⟩ :=
                    processRow_story st idx r s hE hS hc hb
                  rw [heq] at hm
                  injection hm with hm
                  subst hm
                  rw [hest] at hn
                  rcases (isSome_getKey_setKey _ _ _ _).mp hn with hk | hk
                  · subst hk
                    obtain ⟨hs2, he2, hc2⟩ := hd
                    exact hc2 hc
                  · exact hk
          have := hdis n hback
          rw [hcons] at this
          exact this

/-! ### Lemmas about the final normalizer -/

lemma finalizeRecord_epic (est : List (String × ℚ)) (trk : List (String × Flags))
    (r0 : Record) (q : ℚ) (fl : Flags)
    (hE : r0.issueType = "Epic")
    (hq : getKey est r0.epicName = some q)
    (hfl : getKey trk r0.epicName = some fl) :
    finalizeRecord est trk r0 = .ok
      { issueType := r0.issueType, epicName := r0.epicName, epicLink := r0.epicLink,
        summary := r0.summary, description := r0.description,
        components := if fl.android then "Android" else "",
        originalEstimate := roundHalfEven (q * 8 * 3600),
        components1 := if fl.ios then "iOS" else "",
        components2 := if fl.server then "Server" else "" } := by
  simp only [finalizeRecord, backfillEpic, hE, eq_self_iff_true, if_true, hq,
    toDays, hfl, Option.getD_some]

lemma finalizeRecord_story (est : List (String × ℚ)) (trk : List (String × Flags))
    (r0 : Record) (c : Cell) (q : ℚ)
    (hT : r0.issueType = "Story") (hO : r0.originalEstimate = .raw c)
    (hp : parseCell c = some q) :
    finalizeRecord est trk r0 = .ok
      { issueType := r0.issueType, epicName := r0.epicName, epicLink := r0.epicLink,
        summary := r0.summary, description := r0.description,
        components := r0.components,
        originalEstimate := roundHalfEven (q * 8 * 3600),
        components1 := r0.components, components2 := r0.components } := by
  have hne : ¬ r0.issueType = "Epic" := by rw [hT]; decide
  simp only [finalizeRecord, backfillEpic, if_neg hne, hO, toDays, hp]

lemma finalizeRecord_ok_fields (est : List (String × ℚ)) (trk : List (String × Flags))
    (r0 : Record) (fr : FinalRecord) (h : finalizeRecord est trk r0 = .ok fr) :
    ∃ d, toDays (backfillEpic est r0).originalEstimate = .ok d ∧
      fr.originalEstimate = roundHalfEven (d * 8 * 3600) ∧
      fr.issueType = r0.issueType ∧ fr.epicName = r0.epicName := by
  have hfty : (backfillEpic est r0).issueType = r0.issueType := by
    rw [backfillEpic]
    split
    · cases getKey est r0.epicName <;> rfl
    · rfl
  have hfnm : (backfillEpic est r0).epicName = r0.epicName := by
    rw [backfillEpic]
    split
    · cases getKey est r0.epicName <;> rfl
    · rfl
  rw [finalizeRecord] at h
  cases hd : toDays (backfillEpic est r0).originalEstimate with
  | error e => rw [hd] at h; exact absurd h (by simp)
  | ok d =>
    simp only [hd] at h
    refine ⟨d, rfl, ?_⟩
    by_cases he : (backfillEpic est r0).issueType = "Epic"
    · rw [if_pos he] at h
      injection h with h
      subst h
      exact ⟨rfl, hfty, hfnm⟩
    · rw [if_neg he] at h
      injection h with h
      subst h
      exact ⟨rfl, hfty, hfnm⟩

lemma finalizeAll_mem (est : List (String × ℚ)) (trk : List (String × Flags)) :
    ∀ (recs : List Record) (out : List FinalRecord),
    finalizeAll est trk recs = .ok out →
    ∀ fr ∈ out, ∃ r ∈ recs, finalizeRecord est trk r = .ok fr := by
  intro recs
  induction recs with
  | nil =>
    intro out h fr hfr
    simp only [finalizeAll, Except.ok.injEq] at h
    subst h
    simp at hfr
  | cons r rs ih =>
    intro out h fr hfr
    simp only [finalizeAll] at h
    cases h1 : finalizeRecord est trk r with
    | error e => rw [h1] at h; exact absurd h (by simp)
    | ok fr0 =>
      rw [h1] at h
      cases h2 : finalizeAll est trk rs with
      | error e => rw [h2] at h; exact absurd h (by simp)
      | ok frs =>
        rw [h2] at h
        injection h with h
        subst h
        rcases List.mem_cons.mp hfr with hfr | hfr
        · subst hfr
          exact ⟨r, List.mem_cons_self r rs, h1⟩
        · obtain ⟨r2, hr2, hfin⟩ := ih frs h2 fr hfr
          exact ⟨r2, List.mem_cons_of_mem r hr2, hfin⟩

/-! ### Failure-propagation lemmas -/

lemma processRows_orphan (pre : List Row) :
    ∀ (rbad : Row) (rest : List Row) (st : PState) (idx : ℕ),
    st.currentEpic = "" → rbad.isStoryRow = true →
    (∀ r ∈ pre, r.isEpicRow = false) →
    ∃ k, k ≤ pre.length ∧
      processRows st idx (pre ++ rbad :: rest) = .error (.orphanStory (idx + k)) := by
  induction pre with
  | nil =>
    intro rbad rest st idx hcur hstory _
    simp only [Row.isStoryRow, Bool.and_eq_true, Option.isNone_iff_eq_none,
      Option.isSome_iff_exists] at hstory
    obtain ⟨hE, s, hS⟩ := hstory
    refine ⟨0, Nat.le_refl 0, ?_⟩
    simp only [List.nil_append, processRows,
      processRow_orphan st idx rbad s hE hS hcur, Nat.add_zero]
  | cons r pre' ih =>
    intro rbad rest st idx hcur hstory hpre
    have hrE : r.EPIC = none := by
      have := hpre r (List.mem_cons_self r pre')
      simp only [Row.isEpicRow, Bool.eq_false_iff] at this
      exact Option.not_isSome_iff_eq_none.mp this
    cases hS : r.SUMMARY with
    | some s =>
      refine ⟨0, Nat.zero_le _, ?_⟩
      simp only [List.cons_append, processRows,
        processRow_orphan st idx r s hrE hS hcur, Nat.add_zero]
    | none =>
      obtain ⟨k, hk, herr⟩ := ih rbad rest st (idx + 1) hcur hstory
        (fun x hx => hpre x (List.mem_cons_of_mem r hx))
      refine ⟨k + 1, Nat.succ_le_succ hk, ?_⟩
      simp only [List.cons_append, processRows, processRow_skip st idx r hrE hS]
      rw [show idx + (k + 1) = idx + 1 + k by omega]
      exact herr

/-- The epic context the loop holds when it reaches row `j`, given the
incoming context `c`: the `EPIC` value of the last Epic row among the
first `j` rows, or `c` when there is none (app.py line 89: an Epic row
overwrites `current_epic_name`; no other row touches it). -/
def ctxFrom (c : String) (rows : List Row) (j : ℕ) : String :=
  ((rows.take j).filterMap (fun r => r.EPIC)).foldl (fun _ e => e) c

lemma ctxFrom_zero (c : String) (rows : List Row) : ctxFrom c rows 0 = c := rfl

lemma ctxFrom_cons_epic (c e : String) (r : Row) (rs : List Row) (j : ℕ)
    (hE : r.EPIC = some e) : ctxFrom c (r :: rs) (j + 1) = ctxFrom e rs j := by
  simp [ctxFrom, List.take_succ_cons, List.filterMap_cons, hE]

lemma ctxFrom_cons_none (c : String) (r : Row) (rs : List Row) (j : ℕ)
    (hE : r.EPIC = none) : ctxFrom c (r :: rs) (j + 1) = ctxFrom c rs j := by
  simp [ctxFrom, List.take_succ_cons, List.filterMap_cons, hE]

lemma processRows_invalid_strong (rows : List Row) :
    ∀ (st : PState) (idx i : ℕ) (hi : i < rows.length),
    (rows.get ⟨i, hi⟩).isStoryRow = true →
    (rows.get ⟨i, hi⟩).hasBadCell = true →
    ∃ e, processRows st idx rows = .error e ∧
      (e = .invalidEstimate ∨
        ∃ k, ∃ hk : k < rows.length, k ≤ i ∧ e = .orphanStory (idx + k) ∧
          (rows.get ⟨k, hk⟩).isStoryRow = true ∧
          ctxFrom st.currentEpic rows k = "") := by
  induction rows with
  | nil => intro st idx i hi; exact absurd hi (by simp)
  | cons r rs ih =>
    intro st idx i hi hstory hbad
    cases i with
    | zero =>
      have hrs : r.isStoryRow = true := hstory
      have hrb : r.hasBadCell = true := hbad
      simp only [Row.isStoryRow, Bool.and_eq_true, Option.isNone_iff_eq_none,
        Option.isSome_iff_exists] at hrs
      obtain ⟨hE, s, hS⟩ := hrs
      by_cases hc : st.currentEpic = ""
      · refine ⟨.orphanStory idx, ?_, Or.inr ⟨0, hi, Nat.le_refl 0, ?_, hstory, ?_⟩⟩
        · simp only [processRows, processRow_orphan st idx r s hE hS hc]
        · rw [Nat.add_zero]
        · rw [ctxFrom_zero]; exact hc
      · refine ⟨.invalidEstimate, ?_, Or.inl rfl⟩
        simp only [processRows, processRow_story_bad st idx r s hE hS hc hrb]
    | succ j =>
      have hj : j < rs.length := Nat.lt_of_succ_lt_succ hi
      have hstory' : (rs.get ⟨j, hj⟩).isStoryRow = true := hstory
      have hbad' : (rs.get ⟨j, hj⟩).hasBadCell = true := hbad
      cases hE : r.EPIC with
      | some e =>
        obtain ⟨e', herr, hcls⟩ := ih
          { currentEpic := e, estimates := setKey st.estimates e 0,
            tracker := setKey st.tracker e ⟨false, false, false⟩,
            records := st.records ++ [epicRecord e r] } (idx + 1) j hj hstory' hbad'
        refine ⟨e', ?_, ?_⟩
        · simp only [processRows, processRow_epic st idx r e hE]
          exact herr
        · rcases hcls with hcls | ⟨k, hk, hki, heq, hks, hkc⟩
          · exact Or.inl hcls
          · refine Or.inr ⟨k + 1, Nat.succ_lt_succ hk, Nat.succ_le_succ hki, ?_, hks, ?_⟩
            · rw [heq, show idx + 1 + k = idx + (k + 1) by omega]
            · rw [ctxFrom_cons_epic st.currentEpic e r rs k hE]
              exact hkc
      | none =>
        cases hS : r.SUMMARY with
        | none =>
          obtain ⟨e', herr, hcls⟩ := ih st (idx + 1) j hj hstory' hbad'
          refine ⟨e', ?_, ?_⟩
          · simp only [processRows, processRow_skip st idx r hE hS]
            exact herr
          · rcases hcls with hcls | ⟨k, hk, hki, heq, hks, hkc⟩
            · exact Or.inl hcls
            · refine Or.inr ⟨k + 1, Nat.succ_lt_succ hk, Nat.succ_le_succ hki, ?_, hks, ?_⟩
              · rw [heq, show idx + 1 + k = idx + (k + 1) by omega]
              · rw [ctxFrom_cons_none st.currentEpic r rs k hE]
                exact hkc
        | some s =>
          by_cases hc : st.currentEpic = ""
          · refine ⟨.orphanStory idx, ?_,
              Or.inr ⟨0, Nat.succ_pos _, Nat.zero_le _, ?_, ?_, ?_⟩⟩
            · simp only [processRows, processRow_orphan st idx r s hE hS hc]
            · rw [Nat.add_zero]
            · show r.isStoryRow = true
              simp [Row.isStoryRow, hE, hS]
            · rw [ctxFrom_zero]; exact hc
          · cases hb : r.hasBadCell with
            | true =>
              refine ⟨.invalidEstimate, ?_, Or.inl rfl⟩
              simp only [processRows, processRow_story_bad st idx r s hE hS hc hb]
            | false =>
              obtain ⟨st1, heq, hcur', hrec, hest, htm, htb⟩ :=
                processRow_story st idx r s hE hS hc hb
              obtain ⟨e', herr, hcls⟩ := ih st1 (idx + 1) j hj hstory' hbad'
              refine ⟨e', ?_, ?_⟩
              · simp only [processRows, heq]
                exact herr
              · rcases hcls with hcls | ⟨k, hk, hki, heqe, hks, hkc⟩
                · exact Or.inl hcls
                · refine Or.inr ⟨k + 1, Nat.succ_lt_succ hk, Nat.succ_le_succ hki,
                    ?_, hks, ?_⟩
                  · rw [heqe, show idx + 1 + k = idx + (k + 1) by omega]
                  · rw [ctxFrom_cons_none st.currentEpic r rs k hE, ← hcur']
                    exact hkc

/-! ### Concrete inputs used by the example, witness and counterexample
theorems -/

/-- The instructional artifact first data row dropped unconditionally. -/
def artifactRow : Row :=
  { EPIC := none, SUMMARY := some "As a user I need to",
    IOS := none, AND := none, SERV := none, NOTES := none }

/-- Epic row `[Epic="E1", Summary="s1"]`. -/
def epicRow1 : Row :=
  { EPIC := some "E1", SUMMARY := some "s1",
    IOS := none, AND := none, SERV := none, NOTES := none }

/-- Story row `[Epic="", Summary="story1", SERV=2, IOS=1]`. -/
def storyRow1 : Row :=
  { EPIC := none, SUMMARY := some "story1",
    IOS := some (.num 1), AND := none, SERV := some (.num 2), NOTES := none }

/-- The worked example input of the specification. -/
def exampleData : List Row := [artifactRow, epicRow1, storyRow1, endRow]

/-- A fully-empty (skipped) row. -/
def skipRow : Row :=
  { EPIC := none, SUMMARY := none, IOS := none,
    AND := none, SERV := none, NOTES := none }

/-- A Story row whose `SERV` cell is not parseable as a number. -/
def badStoryRow : Row :=
  { EPIC := none, SUMMARY := some "s",
    IOS := none, AND := none, SERV := some (.str "abc"), NOTES := none }

/-- A Story row with only `SERV = 1` populated. -/
def storyServ1 : Row :=
  { EPIC := none, SUMMARY := some "t",
    IOS := none, AND := none, SERV := some (.num 1), NOTES := none }

/-! ### Claim theorems -/

/-- Claim C3, counterexample: the output columns are not in the order the
specification claims — the two components copies are appended after
`Original Estimate`, so `Original Estimate` is the seventh column, not
the ninth. -/
theorem C3_columns_cex : outputColumns ≠
    ["Issue Type", "Epic Name", "Epic Link", "Summary", "Description",
     "Components", "Components-1", "Components-2", "Original Estimate"] := by
  decide

/-- Claim C3 (amended): every successful conversion's output table has
exactly 9 columns, in the fixed order Issue Type, Epic Name, Epic Link,
Summary, Description, Components, Original Estimate, Components 1,
Components 2; each finished record serializes to exactly 9 cells. -/
theorem C3_columns_amended :
    outputColumns = ["Issue Type", "Epic Name", "Epic Link", "Summary",
      "Description", "Components", "Original Estimate", "Components 1",
      "Components 2"] ∧
    outputColumns.length = 9 ∧
    ∀ r : FinalRecord, (FinalRecord.cells r).length = 9 :=
  ⟨rfl, rfl, fun _ => rfl⟩

/-- Claim C5: on a table with at least two rows, the normalizer fails
with the missing-sentinel error when no row of the cleaned table has
`EPIC = "END"`; otherwise it truncates to the rows strictly before the
first such row; in particular when the very first cleaned row carries
the sentinel the result is the empty table, not an error. -/
theorem C5_sentinel (data : List Row) (h : 2 ≤ data.length) :
    ((∀ r ∈ normalizedRows data, r.EPIC ≠ some "END") →
      preprocess data = .error .missingSentinel) ∧
    (∀ i, firstEndIdx (normalizedRows data) = some i →
      preprocess data = .ok ((normalizedRows data).take i)) ∧
    (∀ r rs, normalizedRows data = r :: rs → r.EPIC = some "END" →
      preprocess data = .ok []) := by
  have hnl : ¬ data.length < 2 := by omega
  refine ⟨?_, ?_, ?_⟩
  · intro hend
    rw [preprocess, if_neg hnl, firstEndIdx_none _ hend]
  · intro i hi
    rw [preprocess, if_neg hnl, hi]
  · intro r rs hcons hEND
    rw [preprocess, if_neg hnl, hcons, firstEndIdx, if_pos hEND]
    rfl

/-- Claim C5, witness: a two-row input whose (post-cleanup) first Epic
value is the sentinel yields the empty table. -/
theorem C5_sentinel_witness :
    2 ≤ ([artifactRow, endRow] : List Row).length ∧
    preprocess [artifactRow, endRow] = .ok [] :=
  ⟨by decide, (C5_sentinel [artifactRow, endRow] (by decide)).2.2 endRow [] rfl rfl⟩

/-- Claim C8, counterexample: re-running the normalizer on its own
output after re-adding only a dummy first row fails with the
missing-sentinel error (the claim asserts it returns the same table):
the normalizer's output never contains the `"END"` sentinel row. -/
theorem C8_idempotent_cex :
    preprocess [artifactRow, epicRow1, endRow] = .ok [epicRow1] ∧
    preprocess [artifactRow, epicRow1] = .error .missingSentinel :=
  ⟨rfl, rfl⟩

/-- Claim C8 (amended): re-running the normalizer on its own output
after re-adding a dummy first row and re-appending an `"END"` sentinel
row yields the same table. -/
theorem C8_idempotent_amended (data t : List Row) (dummy : Row)
    (h : preprocess data = .ok t) :
    preprocess (dummy :: (t ++ [endRow])) = .ok t := by
  obtain ⟨hne, hEND⟩ := preprocess_ok_props data t h
  have hlen : ¬ (dummy :: (t ++ [endRow])).length < 2 := by
    simp only [List.length_cons, List.length_append, List.length_singleton]
    omega
  have hnorm : normalizedRows (dummy :: (t ++ [endRow])) = t ++ [endRow] := by
    rw [normalizedRows, List.drop_succ_cons, List.drop_zero, List.filter_append]
    have h1 : t.filter (fun r => !r.isAllEmpty) = t := by
      rw [List.filter_eq_self]
      intro r hr
      rw [hne r hr]
      rfl
    have h2 : [endRow].filter (fun r => !r.isAllEmpty) = [endRow] := by rfl
    rw [h1, h2]
  rw [preprocess, if_neg hlen, hnorm, firstEndIdx_append_end t hEND]
  exact congrArg Except.ok (List.take_left t [endRow])

/-- Claim C8, witness: re-normalizing the output of a concrete run with
the dummy row and the sentinel row restored returns the same table. -/
theorem C8_idempotent_witness :
    preprocess [artifactRow, epicRow1, endRow] = .ok [epicRow1] ∧
    preprocess (artifactRow :: ([epicRow1] ++ [endRow])) = .ok [epicRow1] :=
  ⟨rfl, C8_idempotent_amended [artifactRow, epicRow1, endRow] [epicRow1] artifactRow rfl⟩

/-- Claim C4: a Story row processed under an established epic context,
whose populated platform cells all parse, emits its Story records
contiguously after the previous records, in the fixed order Server,
iOS, Android (one record per populated cell, each carrying that
platform's own raw cell as estimate); when all three cells are
populated, exactly 3 Story records result, in that order. -/
theorem C4_fanout (st : PState) (idx : ℕ) (row : Row) (s : String)
    (hE : row.EPIC = none) (hS : row.SUMMARY = some s) (hc : st.currentEpic ≠ "")
    (hb : row.hasBadCell = false) :
    ∃ st1, processRow st idx row = .ok st1 ∧
      st1.records = st.records
        ++ platformRecords st.currentEpic row "Server" row.SERV
        ++ platformRecords st.currentEpic row "iOS" row.IOS
        ++ platformRecords st.currentEpic row "Android" row.AND ∧
      (∀ cs ci ca, row.SERV = some cs → row.IOS = some ci → row.AND = some ca →
        st1.records = st.records ++
          [storyRecord st.currentEpic row "Server" cs,
           storyRecord st.currentEpic row "iOS" ci,
           storyRecord st.currentEpic row "Android" ca]) := by
  obtain ⟨st1, heq, hcur, hrec, hest, htm, htb⟩ :=
    processRow_story st idx row s hE hS hc hb
  refine ⟨st1, heq, hrec, ?_⟩
  intro cs ci ca hcs hci hca
  rw [hrec, hcs, hci, hca]
  simp [platformRecords]

/-- A Story row with all three platform cells populated. -/
def storyAll : Row :=
  { EPIC := none, SUMMARY := some "s", IOS := some (.num 1),
    AND := some (.num 3), SERV := some (.num 2), NOTES := none }

/-- A loop state with current epic `"E1"` freshly initialized. -/
def stE1 : PState :=
  { currentEpic := "E1", estimates := [("E1", 0)],
    tracker := [("E1", ⟨false, false, false⟩)], records := [] }

/-- Claim C4, witness: a Story row with all three platforms populated,
under epic context `"E1"`, emits exactly the three records Server, iOS,
Android. -/
theorem C4_fanout_witness :
    storyAll.EPIC = none ∧ stE1.currentEpic ≠ "" ∧
    ∃ st1, processRow stE1 0 storyAll = .ok st1 ∧
      st1.records = stE1.records
        ++ platformRecords stE1.currentEpic storyAll "Server" storyAll.SERV
        ++ platformRecords stE1.currentEpic storyAll "iOS" storyAll.IOS
        ++ platformRecords stE1.currentEpic storyAll "Android" storyAll.AND ∧
      (∀ cs ci ca, storyAll.SERV = some cs → storyAll.IOS = some ci →
        storyAll.AND = some ca →
        st1.records = stE1.records ++
          [storyRecord stE1.currentEpic storyAll "Server" cs,
           storyRecord stE1.currentEpic storyAll "iOS" ci,
           storyRecord stE1.currentEpic storyAll "Android" ca]) :=
  ⟨rfl, by decide, C4_fanout stE1 0 storyAll "s" rfl rfl (by decide) rfl⟩

/-- Claim C6: if the expander's input contains a Story row at position
`i` with no Epic row anywhere before it, the expander fails with the
orphan-story error carrying the position of the offending row (the
first such Story row, at some `k ≤ i`), and the whole conversion
aborts with that error for any input normalizing to these rows. -/
theorem C6_orphan (rows : List Row) (i : ℕ) (hi : i < rows.length)
    (hstory : (rows.get ⟨i, hi⟩).isStoryRow = true)
    (hpre : ∀ r ∈ rows.take i, r.isEpicRow = false) :
    ∃ k, k ≤ i ∧ dataframeprocess rows = .error (.orphanStory k) ∧
      ∀ data, preprocess data = .ok rows → convert data = .error (.orphanStory k) := by
  have hsplit : rows.take i ++ rows.get ⟨i, hi⟩ :: rows.drop (i + 1) = rows := by
    rw [List.get_eq_getElem, List.getElem_cons_drop]
    exact List.take_append_drop i rows
  obtain ⟨k, hk, herr⟩ := processRows_orphan (rows.take i) (rows.get ⟨i, hi⟩)
    (rows.drop (i + 1)) initState 0 rfl hstory hpre
  rw [hsplit] at herr
  have hki : k ≤ i := by
    have := List.length_take i rows
    omega
  have hdf : dataframeprocess rows = .error (.orphanStory k) := by
    simp only [dataframeprocess, herr, Nat.zero_add]
  refine ⟨k, hki, hdf, ?_⟩
  intro data hpd
  simp only [convert, hpd, hdf]

/-- Claim C6, witness: a skipped row followed by a Story row with no
Epic row before it makes the expander fail with the orphan-story
error. -/
theorem C6_orphan_witness :
    (([skipRow, storyServ1] : List Row).get ⟨1, by decide⟩).isStoryRow = true ∧
    ∃ k, k ≤ 1 ∧ dataframeprocess [skipRow, storyServ1] = .error (.orphanStory k) ∧
      ∀ data, preprocess data = .ok [skipRow, storyServ1] →
        convert data = .error (.orphanStory k) :=
  ⟨rfl, C6_orphan [skipRow, storyServ1] 1 (by decide) rfl (by decide)⟩

/-- Claim C7, counterexample: an input whose only (orphan) Story row has
the unparseable cell `SERV = "abc"` fails with the orphan-story error,
not with the invalid-estimate error the claim promises. -/
theorem C7_invalid_cex :
    convert [artifactRow, badStoryRow, endRow] = .error (.orphanStory 0) ∧
    Err.orphanStory 0 ≠ Err.invalidEstimate :=
  ⟨rfl, by decide⟩

/-- Claim C7 (amended): whenever the normalized table contains, at
position `i`, a Story row with a populated platform cell that does not
parse as a number, the whole conversion fails and produces no output at
all. The failure is the invalid-estimate error, unless an orphan Story
row is reached first: the orphan alternative can only occur with an
error `orphanStory k` for an actual Story row at `k ≤ i` reached with
empty epic context (`ctxFrom "" rows k = ""`), and when no Story row up
to `i` is reached with empty context, the error is exactly the
invalid-estimate error. -/
theorem C7_invalid_amended (data rows : List Row) (i : ℕ) (hi : i < rows.length)
    (hp : preprocess data = .ok rows)
    (hstory : (rows.get ⟨i, hi⟩).isStoryRow = true)
    (hbad : (rows.get ⟨i, hi⟩).hasBadCell = true) :
    ∃ e, convert data = .error e ∧
      (e = .invalidEstimate ∨
        ∃ k, ∃ hk : k < rows.length, k ≤ i ∧ e = .orphanStory k ∧
          (rows.get ⟨k, hk⟩).isStoryRow = true ∧ ctxFrom "" rows k = "") ∧
      ((∀ j (hj : j < rows.length), j ≤ i → (rows.get ⟨j, hj⟩).isStoryRow = true →
          ctxFrom "" rows j ≠ "") → e = .invalidEstimate) := by
  obtain ⟨e, herr, hcls⟩ :=
    processRows_invalid_strong rows initState 0 i hi hstory hbad
  have hcls0 : e = .invalidEstimate ∨
      ∃ k, ∃ hk : k < rows.length, k ≤ i ∧ e = .orphanStory k ∧
        (rows.get ⟨k, hk⟩).isStoryRow = true ∧ ctxFrom "" rows k = "" := by
    rcases hcls with hcls | ⟨k, hk, hki, heq, hks, hkc⟩
    · exact Or.inl hcls
    · refine Or.inr ⟨k, hk, hki, ?_, hks, hkc⟩
      rw [heq, Nat.zero_add]
  refine ⟨e, ?_, hcls0, ?_⟩
  · simp only [convert, hp, dataframeprocess, herr]
  · intro hnoorph
    rcases hcls0 with hcls0 | ⟨k, hk, hki, -, hks, hkc⟩
    · exact hcls0
    · exact absurd hkc (hnoorph k hk hki hks)

/-- Claim C7, witness: with an Epic row establishing context, the
unparseable `SERV = "abc"` cell aborts the conversion, and since no
Story row is reached with empty context the error is exactly the
invalid-estimate error. -/
theorem C7_invalid_witness :
    preprocess [artifactRow, epicRow1, badStoryRow, endRow] =
      .ok [epicRow1, badStoryRow] ∧
    (([epicRow1, badStoryRow] : List Row).get ⟨1, by decide⟩).isStoryRow = true ∧
    (([epicRow1, badStoryRow] : List Row).get ⟨1, by decide⟩).hasBadCell = true ∧
    convert [artifactRow, epicRow1, badStoryRow, endRow] =
      .error .invalidEstimate ∧
    ∃ e, convert [artifactRow, epicRow1, badStoryRow, endRow] = .error e ∧
      (e = .invalidEstimate ∨
        ∃ k, ∃ hk : k < ([epicRow1, badStoryRow] : List Row).length, k ≤ 1 ∧
          e = .orphanStory k ∧
          (([epicRow1, badStoryRow] : List Row).get ⟨k, hk⟩).isStoryRow = true ∧
          ctxFrom "" [epicRow1, badStoryRow] k = "") ∧
      ((∀ j (hj : j < ([epicRow1, badStoryRow] : List Row).length), j ≤ 1 →
          (([epicRow1, badStoryRow] : List Row).get ⟨j, hj⟩).isStoryRow = true →
          ctxFrom "" [epicRow1, badStoryRow] j ≠ "") → e = .invalidEstimate) :=
  ⟨rfl, rfl, rfl, rfl,
    C7_invalid_amended [artifactRow, epicRow1, badStoryRow, endRow]
      [epicRow1, badStoryRow] 1 (by decide) rfl rfl rfl⟩

/-- Claim C2: the worked example. After the dropped artifact row, the
rows `[Epic="E1", Summary="s1"]`, `[Epic="", Summary="story1", SERV=2,
IOS=1]`, `[Epic="END"]` convert to exactly one Epic record for `E1`
with estimate `86400` seconds and the iOS and Server components set in
its components columns, followed by the two Story records with
estimates `57600` (Components `"Server"`) and `28800` (Components
`"iOS"`), in that order. -/
theorem C2_example : convert exampleData = .ok
    [{ issueType := "Epic", epicName := "E1", epicLink := "",
       summary := some "s1", description := none, components := "",
       originalEstimate := 86400, components1 := "iOS", components2 := "Server" },
     { issueType := "Story", epicName := "", epicLink := "E1",
       summary := some "story1", description := none, components := "Server",
       originalEstimate := 57600, components1 := "Server", components2 := "Server" },
     { issueType := "Story", epicName := "", epicLink := "E1",
       summary := some "story1", description := none, components := "iOS",
       originalEstimate := 28800, components1 := "iOS", components2 := "iOS" }] := by
  have h1 : roundHalfEven (((0 : ℚ) + (2 + 1 + 0)) * 8 * 3600) = 86400 := by
    rw [show (((0 : ℚ) + (2 + 1 + 0)) * 8 * 3600) = ((86400 : ℤ) : ℚ) by norm_num]
    exact roundHalfEven_int 86400
  have h2 : roundHalfEven ((2 : ℚ) * 8 * 3600) = 57600 := by
    rw [show ((2 : ℚ) * 8 * 3600) = ((57600 : ℤ) : ℚ) by norm_num]
    exact roundHalfEven_int 57600
  have h3 : roundHalfEven ((1 : ℚ) * 8 * 3600) = 28800 := by
    rw [show ((1 : ℚ) * 8 * 3600) = ((28800 : ℤ) : ℚ) by norm_num]
    exact roundHalfEven_int 28800
  have hpost : convert exampleData = .ok
      [{ issueType := "Epic", epicName := "E1", epicLink := "",
         summary := some "s1", description := none, components := "",
         originalEstimate := roundHalfEven (((0 : ℚ) + (2 + 1 + 0)) * 8 * 3600),
         components1 := "iOS", components2 := "Server" },
       { issueType := "Story", epicName := "", epicLink := "E1",
         summary := some "story1", description := none, components := "Server",
         originalEstimate := roundHalfEven ((2 : ℚ) * 8 * 3600),
         components1 := "Server", components2 := "Server" },
       { issueType := "Story", epicName := "", epicLink := "E1",
         summary := some "story1", description := none, components := "iOS",
         originalEstimate := roundHalfEven ((1 : ℚ) * 8 * 3600),
         components1 := "iOS", components2 := "iOS" }] := rfl
  rw [hpost, h1, h2, h3]

/-! ### Unpacking the expander's result -/

lemma declaredInv_init : DeclaredInv initState :=
  ⟨fun r hr => absurd hr (List.not_mem_nil r),
   fun r hr => absurd hr (List.not_mem_nil r),
   fun h => absurd rfl h⟩

lemma estInv_init : EstInv initState := by
  intro n q hq
  simp [initState, getKey] at hq

lemma dataframeprocess_ok (rows : List Row) (recs : List Record)
    (est : List (String × ℚ)) (trk : List (String × Flags))
    (h : dataframeprocess rows = .ok (recs, est, trk)) :
    ∃ st2, processRows initState 0 rows = .ok st2 ∧
      st2.records = recs ∧ st2.estimates = est ∧ st2.tracker = trk := by
  rw [dataframeprocess] at h
  cases hm : processRows initState 0 rows with
  | error e => rw [hm] at h; exact absurd h (by simp)
  | ok st2 =>
    rw [hm] at h
    simp only [Except.ok.injEq, Prod.mk.injEq] at h
    exact ⟨st2, rfl, h.1, h.2.1, h.2.2⟩

/-- Claim C1 (amended with pairwise-distinct epic names): for every
expander run over rows whose Epic rows carry pairwise distinct names,
each Epic record's pre-conversion aggregate equals the exact day-unit
sum of the estimates of the Story records linked to that epic, and in
the finished table each Epic record's integer estimate is that sum
times 28800, rounded half-to-even. -/
theorem C1_sum_amended (rows : List Row) (recs : List Record)
    (est : List (String × ℚ)) (trk : List (String × Flags))
    (hnd : (rows.filterMap (fun r => r.EPIC)).Nodup)
    (h : dataframeprocess rows = .ok (recs, est, trk)) :
    (∀ r ∈ recs, r.isEpic = true →
      getKey est r.epicName = some (storySum recs r.epicName)) ∧
    ∀ out, postprocess recs est trk = .ok out →
      ∀ fr ∈ out, fr.issueType = "Epic" →
        fr.originalEstimate = roundHalfEven (storySum recs fr.epicName * 28800) := by
  obtain ⟨st2, hm, h1, h2, h3⟩ := dataframeprocess_ok rows recs est trk h
  subst h1; subst h2; subst h3
  have hdis : ∀ n, (getKey initState.estimates n).isSome = true →
      n ∉ rows.filterMap (fun r => r.EPIC) := by
    intro n hn
    simp [initState, getKey] at hn
  have hinv := processRows_estInv rows initState 0 st2 hm hnd hdis
    declaredInv_init estInv_init
  have hdecl := (processRows_declared rows initState 0 st2 hm declaredInv_init).1
  have hpart1 : ∀ r ∈ st2.records, r.isEpic = true →
      getKey st2.estimates r.epicName = some (storySum st2.records r.epicName) := by
    intro r hr he
    obtain ⟨q, hq⟩ := Option.isSome_iff_exists.mp (hdecl.2.1 r hr he).1
    rw [hq, hinv r.epicName q hq]
  refine ⟨hpart1, ?_⟩
  intro out hout fr hfr hfrE
  obtain ⟨r0, hr0, hfin⟩ :=
    finalizeAll_mem st2.estimates st2.tracker st2.records out hout fr hfr
  obtain ⟨d, htd, hest, hT, hN⟩ := finalizeRecord_ok_fields _ _ r0 fr hfin
  have hr0T : r0.issueType = "Epic" := by rw [← hT]; exact hfrE
  have hr0E : r0.isEpic = true := by simp [Record.isEpic, hr0T]
  have hq := hpart1 r0 hr0 hr0E
  obtain ⟨fl, hfl⟩ := Option.isSome_iff_exists.mp (hdecl.2.1 r0 hr0 hr0E).2
  have hexp := finalizeRecord_epic st2.estimates st2.tracker r0
    (storySum st2.records r0.epicName) fl hr0T hq hfl
  rw [hfin] at hexp
  injection hexp with hexp
  subst hexp
  show roundHalfEven (storySum st2.records r0.epicName * 8 * 3600) = _
  exact congrArg roundHalfEven (by ring)

/-- Records of a one-Epic-row run. -/
def recs1 : List Record := [epicRecord "E1" epicRow1]

/-- Estimates dict of a one-Epic-row run. -/
def est1 : List (String × ℚ) := [("E1", 0)]

/-- Tracker dict of a one-Epic-row run. -/
def trk1 : List (String × Flags) := [("E1", ⟨false, false, false⟩)]

/-- Claim C1, witness: the amended sum property instantiated on the
one-Epic-row input. -/
theorem C1_sum_witness :
    (([epicRow1] : List Row).filterMap (fun r => r.EPIC)).Nodup ∧
    ((∀ r ∈ recs1, r.isEpic = true →
        getKey est1 r.epicName = some (storySum recs1 r.epicName)) ∧
      ∀ out, postprocess recs1 est1 trk1 = .ok out →
        ∀ fr ∈ out, fr.issueType = "Epic" →
          fr.originalEstimate = roundHalfEven (storySum recs1 fr.epicName * 28800)) :=
  ⟨by decide, C1_sum_amended [epicRow1] recs1 est1 trk1 (by decide) rfl⟩

/-- Rows re-declaring the epic name `"E1"` after its stories. -/
def rowsC1 : List Row := [epicRow1, storyServ1, epicRow1]

/-- The records the expander emits for `rowsC1`. -/
def recsC1 : List Record :=
  [epicRecord "E1" epicRow1, storyRecord "E1" storyServ1 "Server" (.num 1),
   epicRecord "E1" epicRow1]

/-- Claim C1, counterexample: with the epic name `"E1"` declared twice,
the second Epic row resets the aggregate, so the pre-conversion
estimate of the Epic records named `"E1"` is `0` while the exact sum of
the estimates of their Story records is `1` — the sum property fails as
stated. -/
theorem C1_sum_cex :
    dataframeprocess rowsC1 = .ok (recsC1, [("E1", (0 : ℚ))],
      [("E1", ⟨false, false, false⟩)]) ∧
    epicRecord "E1" epicRow1 ∈ recsC1 ∧
    (epicRecord "E1" epicRow1).isEpic = true ∧
    storySum recsC1 "E1" = 1 ∧ (0 : ℚ) ≠ 1 := by
  refine ⟨rfl, List.mem_cons_self _ _, rfl, ?_, by norm_num⟩
  show storySum ([epicRecord "E1" epicRow1] ++
    ([storyRecord "E1" storyServ1 "Server" (.num 1)] ++
      [epicRecord "E1" epicRow1])) "E1" = 1
  rw [storySum_append, storySum_append, storySum_epicRecord,
    show ([storyRecord "E1" storyServ1 "Server" (.num 1)] : List Record) =
      platformRecords "E1" storyServ1 "Server" (some (.num 1)) from rfl,
    storySum_platform]
  norm_num [cellDays, parseCell]

/-- Claim C9: per-epic aggregates are keyed by epic name. Processing an
Epic row resets that name's running sum to `0` and all three platform
flags to `false`, whatever the dicts held before; and in the finished
table every Epic record bearing a given name receives its estimate and
its three components columns from the aggregate entries for that name
as they stand at the end of the pass — hence all Epic records sharing
a name receive identical estimate and components columns. -/
theorem C9_duplicate_epics :
    (∀ (st : PState) (idx : ℕ) (row : Row) (e : String), row.EPIC = some e →
      ∃ st1, processRow st idx row = .ok st1 ∧
        getKey st1.estimates e = some 0 ∧
        getKey st1.tracker e = some ⟨false, false, false⟩ ∧
        st1.currentEpic = e) ∧
    ∀ (rows : List Row) (recs : List Record) (est : List (String × ℚ))
      (trk : List (String × Flags)) (out : List FinalRecord),
      dataframeprocess rows = .ok (recs, est, trk) →
      postprocess recs est trk = .ok out →
      (∀ fr ∈ out, fr.issueType = "Epic" →
        ∃ q fl, getKey est fr.epicName = some q ∧
          getKey trk fr.epicName = some fl ∧
          fr.originalEstimate = roundHalfEven (q * 28800) ∧
          fr.components = (if fl.android then "Android" else "") ∧
          fr.components1 = (if fl.ios then "iOS" else "") ∧
          fr.components2 = (if fl.server then "Server" else "")) ∧
      ∀ fr1 ∈ out, ∀ fr2 ∈ out, fr1.issueType = "Epic" → fr2.issueType = "Epic" →
        fr1.epicName = fr2.epicName →
        fr1.originalEstimate = fr2.originalEstimate ∧
        fr1.components = fr2.components ∧
        fr1.components1 = fr2.components1 ∧
        fr1.components2 = fr2.components2 := by
  constructor
  · intro st idx row e hE
    refine ⟨_, processRow_epic st idx row e hE, ?_, ?_, rfl⟩
    · exact getKey_setKey_self st.estimates e 0
    · exact getKey_setKey_self st.tracker e ⟨false, false, false⟩
  · intro rows recs est trk out h hout
    obtain ⟨st2, hm, h1, h2, h3⟩ := dataframeprocess_ok rows recs est trk h
    subst h1; subst h2; subst h3
    have hdecl := (processRows_declared rows initState 0 st2 hm declaredInv_init).1
    have hchar : ∀ fr ∈ out, fr.issueType = "Epic" →
        ∃ q fl, getKey st2.estimates fr.epicName = some q ∧
          getKey st2.tracker fr.epicName = some fl ∧
          fr.originalEstimate = roundHalfEven (q * 28800) ∧
          fr.components = (if fl.android then "Android" else "") ∧
          fr.components1 = (if fl.ios then "iOS" else "") ∧
          fr.components2 = (if fl.server then "Server" else "") := by
      intro fr hfr hfrE
      obtain ⟨r0, hr0, hfin⟩ :=
        finalizeAll_mem st2.estimates st2.tracker st2.records out hout fr hfr
      obtain ⟨d, htd, hest, hT, hN⟩ := finalizeRecord_ok_fields _ _ r0 fr hfin
      have hr0T : r0.issueType = "Epic" := by rw [← hT]; exact hfrE
      have hr0E : r0.isEpic = true := by simp [Record.isEpic, hr0T]
      obtain ⟨q, hq⟩ := Option.isSome_iff_exists.mp (hdecl.2.1 r0 hr0 hr0E).1
      obtain ⟨fl, hfl⟩ := Option.isSome_iff_exists.mp (hdecl.2.1 r0 hr0 hr0E).2
      have hexp := finalizeRecord_epic st2.estimates st2.tracker r0 q fl hr0T hq hfl
      rw [hfin] at hexp
      injection hexp with hexp
      subst hexp
      exact ⟨q, fl, hq, hfl, congrArg roundHalfEven (by ring), rfl, rfl, rfl⟩
    refine ⟨hchar, ?_⟩
    intro fr1 hfr1 fr2 hfr2 hE1 hE2 hname
    obtain ⟨q1, fl1, hq1, hfl1, ho1, hc1, hd1, hs1⟩ := hchar fr1 hfr1 hE1
    obtain ⟨q2, fl2, hq2, hfl2, ho2, hc2, hd2, hs2⟩ := hchar fr2 hfr2 hE2
    rw [hname] at hq1 hfl1
    have hqq : q1 = q2 := by
      have := hq1.symm.trans hq2
      injection this
    have hff : fl1 = fl2 := by
      have := hfl1.symm.trans hfl2
      injection this
    subst hqq; subst hff
    exact ⟨ho1.trans ho2.symm, hc1.trans hc2.symm, hd1.trans hd2.symm,
      hs1.trans hs2.symm⟩

/-- The finished table of the one-Epic-row run. -/
def out1 : List FinalRecord :=
  [{ issueType := "Epic", epicName := "E1", epicLink := "",
     summary := some "s1", description := none, components := "",
     originalEstimate := roundHalfEven ((0 : ℚ) * 8 * 3600),
     components1 := "", components2 := "" }]

/-- Claim C9, witness: the reset and the aggregate-driven finalization,
instantiated on the one-Epic-row input. -/
theorem C9_duplicate_epics_witness :
    (∃ st1, processRow initState 0 epicRow1 = .ok st1 ∧
      getKey st1.estimates "E1" = some 0 ∧
      getKey st1.tracker "E1" = some ⟨false, false, false⟩ ∧
      st1.currentEpic = "E1") ∧
    (∀ fr ∈ out1, fr.issueType = "Epic" →
      ∃ q fl, getKey est1 fr.epicName = some q ∧
        getKey trk1 fr.epicName = some fl ∧
        fr.originalEstimate = roundHalfEven (q * 28800) ∧
        fr.components = (if fl.android then "Android" else "") ∧
        fr.components1 = (if fl.ios then "iOS" else "") ∧
        fr.components2 = (if fl.server then "Server" else "")) ∧
    ∀ fr1 ∈ out1, ∀ fr2 ∈ out1, fr1.issueType = "Epic" → fr2.issueType = "Epic" →
      fr1.epicName = fr2.epicName →
      fr1.originalEstimate = fr2.originalEstimate ∧
      fr1.components = fr2.components ∧
      fr1.components1 = fr2.components1 ∧
      fr1.components2 = fr2.components2 :=
  ⟨C9_duplicate_epics.1 initState 0 epicRow1 "E1" rfl,
   C9_duplicate_epics.2 [epicRow1] recs1 est1 trk1 out1 rfl rfl⟩

/-- Claim C10: every finished record's integer estimate is its
pre-conversion day value times 28800, rounded to the nearest integer by
`roundHalfEven`, which rounds any value strictly within one half of an
integer to that integer and rounds exact halves to the even
neighbour. -/
theorem C10_rounding :
    (∀ (recs : List Record) (est : List (String × ℚ))
      (trk : List (String × Flags)) (out : List FinalRecord),
      postprocess recs est trk = .ok out →
      ∀ fr ∈ out, ∃ r ∈ recs, ∃ d : ℚ,
        toDays (backfillEpic est r).originalEstimate = .ok d ∧
        fr.originalEstimate = roundHalfEven (d * 28800)) ∧
    (∀ (q : ℚ) (n : ℤ), (n : ℚ) - 1 / 2 < q → q < (n : ℚ) + 1 / 2 →
      roundHalfEven q = n) ∧
    ∀ n : ℤ, Even (roundHalfEven ((n : ℚ) + 1 / 2)) ∧
      (roundHalfEven ((n : ℚ) + 1 / 2) = n ∨
        roundHalfEven ((n : ℚ) + 1 / 2) = n + 1) := by
  refine ⟨?_, roundHalfEven_near, ?_⟩
  · intro recs est trk out hout fr hfr
    obtain ⟨r0, hr0, hfin⟩ := finalizeAll_mem est trk recs out hout fr hfr
    obtain ⟨d, htd, hest, -, -⟩ := finalizeRecord_ok_fields _ _ r0 fr hfin
    refine ⟨r0, hr0, d, htd, ?_⟩
    rw [hest]
    exact congrArg roundHalfEven (by ring)
  · intro n
    rw [roundHalfEven_tie]
    by_cases h : n % 2 = 0
    · rw [if_pos h]
      exact ⟨Int.even_iff.mpr h, Or.inl rfl⟩
    · rw [if_neg h]
      refine ⟨Int.even_add_one.mpr (fun he => h (Int.even_iff.mp he)), Or.inr rfl⟩

/-- Claim C10, witness: the rounding property instantiated on the
one-Epic-row run, on a value strictly within one half of `0`, and on
the exact tie at `1 / 2`. -/
theorem C10_rounding_witness :
    (∀ fr ∈ out1, ∃ r ∈ recs1, ∃ d : ℚ,
      toDays (backfillEpic est1 r).originalEstimate = .ok d ∧
      fr.originalEstimate = roundHalfEven (d * 28800)) ∧
    roundHalfEven (0 : ℚ) = (0 : ℤ) ∧
    (Even (roundHalfEven (((0 : ℤ) : ℚ) + 1 / 2)) ∧
      (roundHalfEven (((0 : ℤ) : ℚ) + 1 / 2) = 0 ∨
        roundHalfEven (((0 : ℤ) : ℚ) + 1 / 2) = 0 + 1)) :=
  ⟨C10_rounding.1 recs1 est1 trk1 out1 rfl,
   C10_rounding.2.1 0 0 (by norm_num) (by norm_num),
   C10_rounding.2.2 0⟩

end JiraImport
